import Mathlib

/-!
# crypto/hash.h: the typed hash facade

A shallow embedding of `src/crypto/hash.h`: the two fixed-width value types, the
`cn_slow_hash` dispatcher with its thread-local heavy engines and the Argon2
selection flag, and the typed `tree_hash` wrapper.

The hash algorithms themselves (`cn_heavy_hash_v1/v2::hash`, `cn_turtle_hash`,
`argon2_select_impl`, `argon2id_hash_raw`, the raw `tree_hash`) are declared in other
headers. Those `cn_slow_hash` calls enter as the fields of `Externals`, each taking the
arguments the source passes, in the source's order; the raw `tree_hash` is an argument
of the typed one.

`State` is what a single call can touch; `Process` holds the copies of
`argon2_optimization_selected`, one for each translation unit, and the thread-local
engines, one pair for each thread, and `Process.run` runs calls that come from any of
them.
-/

namespace crypto

/-! ## Data model -/

/-- One `char` of storage. -/
abbrev Byte := Fin 256

/-- A C array `char[n]`: exactly `n` bytes. -/
abbrev CharArray (n : Nat) := { l : List Byte // l.length = n }

/-- Modelled from the spec: `HASH_SIZE` is defined in `hash-ops.h`, which is not part of
the sources at hand; the spec fixes the width of a hash value at 32 bytes. -/
def HASH_SIZE : Nat := 32

/-- `struct alignas(size_t) hash { char data[HASH_SIZE]; }`. The
`static_assert(sizeof(hash) == HASH_SIZE)` is carried by the type of `data`. -/
structure hash where
  data : CharArray HASH_SIZE
deriving DecidableEq

/-- `struct hash8 { char data[8]; }`. -/
structure hash8 where
  data : CharArray 8
deriving DecidableEq

/-- Value-initialised storage (`= {}`): every byte is zero. -/
def zeroed (n : Nat) : CharArray n := ⟨List.replicate n 0, List.length_replicate n 0⟩

/-- `const static crypto::hash null_hash = {};` -/
def null_hash : hash := ⟨zeroed HASH_SIZE⟩

/-- `const static crypto::hash8 null_hash8 = {};` -/
def null_hash8 : hash8 := ⟨zeroed 8⟩

/-- `enum struct cn_slow_hash_type`: a scoped enumeration without a fixed underlying
type is stored as an `int`, and every `int` is a value of the type. -/
abbrev cn_slow_hash_type := Int

def cn_slow_hash_type.heavy_v1 : cn_slow_hash_type := 0
def cn_slow_hash_type.heavy_v2 : cn_slow_hash_type := 1
def cn_slow_hash_type.turtle_lite_v2 : cn_slow_hash_type := 2
def cn_slow_hash_type.chukwa_slow_hash : cn_slow_hash_type := 3

/-- The tag is one of the four enumerators. -/
def cn_slow_hash_type.is_enumerator (t : cn_slow_hash_type) : Prop :=
  t = cn_slow_hash_type.heavy_v1 ∨ t = cn_slow_hash_type.heavy_v2 ∨
  t = cn_slow_hash_type.turtle_lite_v2 ∨ t = cn_slow_hash_type.chukwa_slow_hash

instance (t : cn_slow_hash_type) : Decidable t.is_enumerator := by
  unfold cn_slow_hash_type.is_enumerator; infer_instance

/-! ## External collaborators -/

/-- What `argon2id_hash_raw` hands back: its `int` status, and the bytes it stored in the
output buffer, if it stored any. -/
structure Argon2Result (hashlen : Nat) where
  code : Int
  out : Option (CharArray hashlen)

/-- Status `ARGON2_OK` of the Argon2 library. -/
def ARGON2_OK : Int := 0

/-- The functions `hash.h` calls and does not define. `W` is whatever state they keep
between calls (scratch memory, the selected Argon2 implementation); `V2` and `V1` are
the classes `cn_heavy_hash_v2` and `cn_heavy_hash_v1`. A `const void *data` is given as
the bytes readable from the pointer on, and travels with its `length` as in the source. -/
structure Externals (W V1 V2 : Type) where
  /-- Default constructor of `cn_heavy_hash_v2`. -/
  cn_heavy_hash_v2_new : W → W × V2
  /-- Function `cn_heavy_hash_v1::make_borrowed`. -/
  make_borrowed : V2 → V1
  /-- Method `cn_heavy_hash_v1::hash(data, length, out)`. -/
  v1_hash : W → V1 → List Byte → Nat → W × CharArray 32
  /-- Method `cn_heavy_hash_v2::hash(data, length, out)`. -/
  v2_hash : W → V2 → List Byte → Nat → W × CharArray 32
  /-- Function `cn_turtle_hash(data, length, out, light, variant, prehashed, scratchpad, iterations)`. -/
  cn_turtle_hash : W → List Byte → Nat → Int → Int → Int → Nat → Nat → W × CharArray 32
  /-- Function `argon2_select_impl(NULL, NULL)`. -/
  argon2_select_impl : W → W
  /-- Function `argon2id_hash_raw(t_cost, m_cost, parallelism, pwd, pwdlen, salt, saltlen, hash, hashlen)`. -/
  argon2id_hash_raw : W → Nat → Nat → Nat → List Byte → Nat → List Byte → Nat →
    (hashlen : Nat) → W × Argon2Result hashlen

/-- A call made to an external collaborator, with the arguments that select its result. -/
inductive Call where
  | v1_hash (data : List Byte) (length : Nat)
  | v2_hash (data : List Byte) (length : Nat)
  | cn_turtle_hash (data : List Byte) (length : Nat) (light variant prehashed : Int)
      (scratchpad iterations : Nat)
  | argon2_select_impl
  | argon2id_hash_raw (t_cost m_cost parallelism : Nat) (pwd : List Byte) (pwdlen : Nat)
      (salt : List Byte) (saltlen hashlen : Nat)
deriving DecidableEq

/-! ## State -/

/-- What one call of `cn_slow_hash` reads and leaves behind besides its arguments: the
part of the process the call can touch. -/
structure State (W V1 V2 : Type) where
  /-- State of the external collaborators. -/
  world : W
  /-- The flag `static bool argon2_optimization_selected` of line 48, as the call sees
  it. The variable is `static` at namespace scope in a header: every translation unit
  that includes `hash.h` has a copy of its own, and all threads share that copy. This is
  the copy of the translation unit the call is compiled in. -/
  argon2_optimization_selected : Bool
  /-- The block-scope `static thread_local` objects `v2` and `v1` of the calling thread;
  `none` until control first passes their declarations in that thread. -/
  heavy : Option (V2 × V1)
  /-- Calls made to the external collaborators so far, oldest first. -/
  trace : List Call
deriving DecidableEq

/-- What the first call made in a process sees: `argon2_optimization_selected = false`
in its translation unit, the thread-local engines of its thread not yet constructed, no
call made. -/
def State.init {W V1 V2 : Type} (w : W) : State W V1 V2 := ⟨w, false, none, []⟩

/-- How a call ends. The source returns `void`: there is no status to report. -/
inductive Outcome (α : Type) where
  /-- Control returns to the caller. -/
  | returned (a : α)
  /-- The call read outside the bytes readable from `data`: the language assigns it no
  behaviour. -/
  | undefined
deriving DecidableEq

/-- The call `memcpy(dst, src, n)` seen from its source operand: the `n` bytes at offsets
`0 .. n-1` of `src`, when they are all readable. -/
def memcpy (src : List Byte) (n : Nat) : Option (CharArray n) :=
  if h : n ≤ src.length then some ⟨src.take n, by simp [h]⟩ else none

/-- The object behind `hash.data` once a callee that may fail was handed the pointer: the
bytes it stored, or the caller's bytes when it stored none. -/
def stored (out : Option (CharArray 32)) (h : hash) : hash :=
  match out with
  | some d => ⟨d⟩
  | none => h

/-! ## cn_slow_hash -/

section
variable {W V1 V2 : Type}

/-- Lines 88-89: `static thread_local cn_heavy_hash_v2 v2;` and
`static thread_local cn_heavy_hash_v1 v1 = cn_heavy_hash_v1::make_borrowed(v2);`,
initialised the first time control passes them and kept afterwards. -/
def heavy_statics (E : Externals W V1 V2) (s : State W V1 V2) : State W V1 V2 × V2 × V1 :=
  match s.heavy with
  | some (v2, v1) => (s, v2, v1)
  | none =>
    let r := E.cn_heavy_hash_v2_new s.world
    let v2 := r.2
    let v1 := E.make_borrowed v2
    (⟨r.1, s.argon2_optimization_selected, some (v2, v1), s.trace⟩, v2, v1)

/-- `inline void cn_slow_hash(const void *data, std::size_t length, hash &hash,
cn_slow_hash_type type)`. The reference parameter `hash` comes in with the caller's
bytes and goes out with the bytes left in it. -/
def cn_slow_hash (E : Externals W V1 V2) (s : State W V1 V2) (data : List Byte)
    (length : Nat) (hash : hash) (type : cn_slow_hash_type) :
    Outcome (State W V1 V2 × crypto.hash) :=
  if type = cn_slow_hash_type.heavy_v1 ∨ type = cn_slow_hash_type.heavy_v2 then
    let st := heavy_statics E s
    let s1 := st.1
    let v2 := st.2.1
    let v1 := st.2.2
    if type = cn_slow_hash_type.heavy_v1 then
      let r := E.v1_hash s1.world v1 data length
      .returned (⟨r.1, s1.argon2_optimization_selected, s1.heavy,
        s1.trace ++ [Call.v1_hash data length]⟩, ⟨r.2⟩)
    else
      let r := E.v2_hash s1.world v2 data length
      .returned (⟨r.1, s1.argon2_optimization_selected, s1.heavy,
        s1.trace ++ [Call.v2_hash data length]⟩, ⟨r.2⟩)
  else if type = cn_slow_hash_type.turtle_lite_v2 then
    let CN_TURTLE_SCRATCHPAD : Nat := 262144
    let CN_TURTLE_ITERATIONS : Nat := 131072
    let r := E.cn_turtle_hash s.world data length 1 2 0 CN_TURTLE_SCRATCHPAD CN_TURTLE_ITERATIONS
    .returned (⟨r.1, s.argon2_optimization_selected, s.heavy,
      s.trace ++ [Call.cn_turtle_hash data length 1 2 0 CN_TURTLE_SCRATCHPAD
        CN_TURTLE_ITERATIONS]⟩, ⟨r.2⟩)
  else
    -- case cn_slow_hash_type::chukwa_slow_hash: default:
    let CHUKWA_HASHLEN : Nat := 32
    let CHUKWA_SALTLEN : Nat := 16
    let CHUKWA_THREADS : Nat := 1
    let CHUKWA_ITERS : Nat := 4
    let CHUKWA_MEMORY : Nat := 1024
    match memcpy data CHUKWA_SALTLEN with
    | none => .undefined
    | some salt =>
      let s1 : State W V1 V2 :=
        if !s.argon2_optimization_selected then
          ⟨E.argon2_select_impl s.world, true, s.heavy, s.trace ++ [Call.argon2_select_impl]⟩
        else s
      let r := E.argon2id_hash_raw s1.world CHUKWA_ITERS CHUKWA_MEMORY CHUKWA_THREADS
        data length salt.val CHUKWA_SALTLEN CHUKWA_HASHLEN
      .returned (⟨r.1, s1.argon2_optimization_selected, s1.heavy,
        s1.trace ++ [Call.argon2id_hash_raw CHUKWA_ITERS CHUKWA_MEMORY CHUKWA_THREADS
          data length salt.val CHUKWA_SALTLEN CHUKWA_HASHLEN]⟩,
        stored r.2.out hash)

/-- One call of `cn_slow_hash` as a caller issues it: the bytes readable from `data`,
`length`, the caller's output object and the tag. -/
structure Request where
  data : List Byte
  length : Nat
  hash : hash
  type : cn_slow_hash_type
deriving DecidableEq

/-- One thread issuing the calls of a list one after another from one translation unit,
nothing else running in the process: each call sees what the previous one left. Calls
spread over threads and translation units are the subject of `Process.run`. -/
def run (E : Externals W V1 V2) (s : State W V1 V2) : List Request → Outcome (State W V1 V2)
  | [] => .returned s
  | c :: cs =>
    match cn_slow_hash E s c.data c.length c.hash c.type with
    | .returned r => run E r.1 cs
    | .undefined => .undefined

/-! ## The process: translation units and threads -/

/-- A call of `cn_slow_hash` placed in the process: the translation unit whose code makes
the call, the thread that runs it, and the call. -/
structure Issued where
  unit : Nat
  thread : Nat
  call : Request
deriving DecidableEq

/-- The tag leads to the last arm of the switch, labelled
`case cn_slow_hash_type::chukwa_slow_hash:` and `default:`; it matches none of the three
case labels before it. -/
def cn_slow_hash_type.last_arm (t : cn_slow_hash_type) : Prop :=
  t ≠ cn_slow_hash_type.heavy_v1 ∧ t ≠ cn_slow_hash_type.heavy_v2 ∧
  t ≠ cn_slow_hash_type.turtle_lite_v2

instance (t : cn_slow_hash_type) : Decidable t.last_arm := by
  unfold cn_slow_hash_type.last_arm; infer_instance

/-- The state of a whole process between calls of `cn_slow_hash`. -/
structure Process (W V1 V2 : Type) where
  /-- State of the external collaborators. -/
  world : W
  /-- The copies of `static bool argon2_optimization_selected`, one for each translation
  unit that includes `hash.h`, each shared by all threads. -/
  argon2_optimization_selected : Nat → Bool
  /-- The `static thread_local` objects `v2` and `v1`, one pair for each thread. -/
  heavy : Nat → Option (V2 × V1)
  /-- Calls made to the external collaborators so far, oldest first. -/
  trace : List Call

/-- A process at start: every copy of the flag is `false` (line 48), no thread has
constructed its engines, no call was made. -/
def Process.init (w : W) : Process W V1 V2 := ⟨w, fun _ => false, fun _ => none, []⟩

/-- What a call made from translation unit `unit` on thread `thread` sees of the
process. -/
def Process.view (p : Process W V1 V2) (unit thread : Nat) : State W V1 V2 :=
  ⟨p.world, p.argon2_optimization_selected unit, p.heavy thread, p.trace⟩

/-- One call of `cn_slow_hash` in the process: it runs on the flag of its translation
unit and the engines of its thread, and what it leaves there is what later calls find. -/
def Process.call (E : Externals W V1 V2) (p : Process W V1 V2) (c : Issued) :
    Outcome (Process W V1 V2 × hash) :=
  match cn_slow_hash E (p.view c.unit c.thread) c.call.data c.call.length c.call.hash
      c.call.type with
  | .returned r =>
    .returned (⟨r.1.world,
      Function.update p.argon2_optimization_selected c.unit r.1.argon2_optimization_selected,
      Function.update p.heavy c.thread r.1.heavy, r.1.trace⟩, r.2)
  | .undefined => .undefined

/-- The calls of a list run one after another in the process, in the order of the
list, whichever threads and translation units they come from. -/
def Process.run (E : Externals W V1 V2) (p : Process W V1 V2) :
    List Issued → Outcome (Process W V1 V2)
  | [] => .returned p
  | c :: cs =>
    match Process.call E p c with
    | .returned r => Process.run E r.1 cs
    | .undefined => .undefined

end

/-- The translation units from which a call of the list reaches the last arm while the
unit's flag, `selected` before the list, is still clear. -/
def fresh_units (selected : Nat → Bool) (calls : List Issued) : Finset Nat :=
  ((calls.filter (fun c => decide c.call.type.last_arm && !selected c.unit)).map
    Issued.unit).toFinset

/-- The translation units from which some call of the list reaches the last arm. -/
def probing_units (calls : List Issued) : Finset Nat :=
  fresh_units (fun _ => false) calls

/-! ## tree_hash -/

/-- `reinterpret_cast<const char (*)[HASH_SIZE]>(hashes)`: the storage of an array of
`hash` objects read as bytes. As `sizeof(hash) == HASH_SIZE`, the objects lie back to
back without padding. -/
def as_chars (hashes : List hash) : List Byte :=
  (hashes.map (fun h => h.data.val)).flatten

/-- Element `i` of a `const char (*)[HASH_SIZE]`: the `HASH_SIZE` bytes from offset
`HASH_SIZE * i` on. -/
def chars_at (p : List Byte) (i : Nat) : List Byte :=
  (p.drop (HASH_SIZE * i)).take HASH_SIZE

/-- `inline void tree_hash(const hash *hashes, std::size_t count, hash &root_hash)`,
over the raw `tree_hash(const char (*hashes)[HASH_SIZE], size_t count, char *root_hash)`
of `hash-ops.h`, which is passed as `raw`. -/
def tree_hash (raw : List Byte → Nat → CharArray 32) (hashes : List hash) (count : Nat) : hash :=
  ⟨raw (as_chars hashes) count⟩

/-! ## Properties of states and collaborators -/

/-- The thread-local `v1`, once constructed, is the engine `make_borrowed` builds from
the thread-local `v2` of the same state. -/
def State.v1_borrows_v2 {W V1 V2 : Type} (E : Externals W V1 V2) (s : State W V1 V2) : Prop :=
  ∀ v2 v1, s.heavy = some (v2, v1) → v1 = E.make_borrowed v2

/-- Each engine is a deterministic function of its arguments: what it stores in the
output buffer (and, for Argon2, the status it reports) is fixed by the numbers it is
given and by the `length` bytes of each byte argument, whatever the state of the
collaborators, whichever engine object is used and whatever lies behind those bytes. -/
def Externals.deterministic {W V1 V2 : Type} (E : Externals W V1 V2) : Prop :=
  (∀ w w' v v' data data' length, data.take length = data'.take length →
    (E.v1_hash w v data length).2 = (E.v1_hash w' v' data' length).2) ∧
  (∀ w w' v v' data data' length, data.take length = data'.take length →
    (E.v2_hash w v data length).2 = (E.v2_hash w' v' data' length).2) ∧
  (∀ w w' data data' length light variant prehashed scratchpad iterations,
    data.take length = data'.take length →
    (E.cn_turtle_hash w data length light variant prehashed scratchpad iterations).2 =
      (E.cn_turtle_hash w' data' length light variant prehashed scratchpad iterations).2) ∧
  (∀ w w' t_cost m_cost parallelism pwd pwd' pwdlen salt salt' saltlen hashlen,
    pwd.take pwdlen = pwd'.take pwdlen → salt.take saltlen = salt'.take saltlen →
    (E.argon2id_hash_raw w t_cost m_cost parallelism pwd pwdlen salt saltlen hashlen).2 =
      (E.argon2id_hash_raw w' t_cost m_cost parallelism pwd' pwdlen salt' saltlen hashlen).2)

/-! ## Concrete collaborators, for evaluating the definitions -/

/-- The first `n` bytes of `l`, zero-filled when `l` is shorter. -/
def fill (n : Nat) (l : List Byte) : CharArray n :=
  ⟨(l ++ List.replicate n 0).take n, by simp⟩

/-- Collaborators that always succeed: every digest is cut from the bytes it is asked to
hash, the Argon2 one from the salt followed by the message; the state counts calls. -/
def toy : Externals Nat Nat Nat where
  cn_heavy_hash_v2_new := fun w => (w + 1, 7)
  make_borrowed := fun v2 => v2 + 100
  v1_hash := fun w _ data length => (w + 1, fill 32 (1 :: data.take length))
  v2_hash := fun w _ data length => (w + 1, fill 32 (2 :: data.take length))
  cn_turtle_hash := fun w data length _ _ _ _ _ => (w + 1, fill 32 (3 :: data.take length))
  argon2_select_impl := fun w => w + 1000
  argon2id_hash_raw := fun w _ _ _ pwd pwdlen salt saltlen hashlen =>
    (w + 1, ⟨ARGON2_OK, some (fill hashlen (salt.take saltlen ++ pwd.take pwdlen))⟩)

/-- Collaborators whose Argon2 primitive refuses every request: status `-1`, output
buffer untouched. -/
def toy_failing : Externals Nat Nat Nat where
  cn_heavy_hash_v2_new := toy.cn_heavy_hash_v2_new
  make_borrowed := toy.make_borrowed
  v1_hash := toy.v1_hash
  v2_hash := toy.v2_hash
  cn_turtle_hash := toy.cn_turtle_hash
  argon2_select_impl := toy.argon2_select_impl
  argon2id_hash_raw := fun w _ _ _ _ _ _ _ _ => (w + 1, ⟨-1, none⟩)

/-- The collaborators `E` with the status of `argon2id_hash_raw` passed through `f`,
everything else as in `E`. -/
def Externals.map_status {W V1 V2 : Type} (E : Externals W V1 V2) (f : Int → Int) :
    Externals W V1 V2 where
  cn_heavy_hash_v2_new := E.cn_heavy_hash_v2_new
  make_borrowed := E.make_borrowed
  v1_hash := E.v1_hash
  v2_hash := E.v2_hash
  cn_turtle_hash := E.cn_turtle_hash
  argon2_select_impl := E.argon2_select_impl
  argon2id_hash_raw := fun w t m p pwd pwdlen salt saltlen hashlen =>
    ((E.argon2id_hash_raw w t m p pwd pwdlen salt saltlen hashlen).1,
      ⟨f (E.argon2id_hash_raw w t m p pwd pwdlen salt saltlen hashlen).2.code,
        (E.argon2id_hash_raw w t m p pwd pwdlen salt saltlen hashlen).2.out⟩)

/-- The state of the collaborators in which `argon2id_hash_raw` is called from state
`s`: after the probe when the flag is still clear, unchanged otherwise. -/
def argon2_world {W V1 V2 : Type} (E : Externals W V1 V2) (s : State W V1 V2) : W :=
  if s.argon2_optimization_selected then s.world else E.argon2_select_impl s.world

/-- Calls of a process, for evaluation: two translation units, two threads; unit 0
hashes with `heavy_v1`, `chukwa_slow_hash` and `chukwa_slow_hash` again, unit 1 with the
unlisted tag 7 and `turtle_lite_v2`. -/
def toy_issued : List Issued :=
  [⟨0, 0, ⟨[1, 2, 3], 3, null_hash, cn_slow_hash_type.heavy_v1⟩⟩,
   ⟨0, 1, ⟨List.replicate 16 5, 16, null_hash, cn_slow_hash_type.chukwa_slow_hash⟩⟩,
   ⟨1, 0, ⟨List.replicate 16 7, 16, null_hash, 7⟩⟩,
   ⟨0, 0, ⟨List.replicate 16 6, 16, null_hash, cn_slow_hash_type.chukwa_slow_hash⟩⟩,
   ⟨1, 1, ⟨[4], 1, null_hash, cn_slow_hash_type.turtle_lite_v2⟩⟩]

/-- A state `toy` reaches: one `heavy_v2` call made, the thread-local engines built. -/
def toy_state : State Nat Nat Nat :=
  ⟨2, false, some (7, 107), [Call.v2_hash [1, 2, 3] 3]⟩

/-- Sixteen readable bytes `1, 2, ..., 16`. -/
def bytes16 : List Byte := [1, 2, 3, 4, 5, 6, 7, 8, 9, 10, 11, 12, 13, 14, 15, 16]

/-- Twenty readable bytes `1, 2, ..., 20`. -/
def bytes20 : List Byte := bytes16 ++ [17, 18, 19, 20]

/-! ## Theorems -/

section
variable {W V1 V2 : Type}

/-- A `memcpy` of `n` bytes succeeds when `n` bytes are readable. -/
theorem memcpy_of_le (src : List Byte) (n : Nat) (h : n ≤ src.length) :
    memcpy src n = some ⟨src.take n, by simp [h]⟩ := by
  simp [memcpy, h]

/-- A `memcpy` of `n` bytes from fewer readable bytes has no defined result. -/
theorem memcpy_of_lt (src : List Byte) (n : Nat) (h : src.length < n) :
    memcpy src n = none := by
  simp [memcpy, Nat.not_le.mpr h]

/-- The last arm of the switch, reached by every tag other than `heavy_v1`, `heavy_v2`
and `turtle_lite_v2`, once the sixteen salt bytes are readable. -/
theorem cn_slow_hash_last_arm (E : Externals W V1 V2) (s : State W V1 V2) (data : List Byte)
    (length : Nat) (h : hash) (type : cn_slow_hash_type)
    (h0 : type ≠ cn_slow_hash_type.heavy_v1) (h1 : type ≠ cn_slow_hash_type.heavy_v2)
    (h2 : type ≠ cn_slow_hash_type.turtle_lite_v2) (hread : 16 ≤ data.length) :
    cn_slow_hash E s data length h type =
      .returned
        (⟨(E.argon2id_hash_raw (argon2_world E s) 4 1024 1 data length (data.take 16) 16 32).1,
          true, s.heavy,
          (if s.argon2_optimization_selected then s.trace
            else s.trace ++ [Call.argon2_select_impl]) ++
            [Call.argon2id_hash_raw 4 1024 1 data length (data.take 16) 16 32]⟩,
         stored (E.argon2id_hash_raw (argon2_world E s) 4 1024 1 data length
            (data.take 16) 16 32).2.out h) := by
  unfold cn_slow_hash
  rw [if_neg (by simp [h0, h1]), if_neg h2]
  simp only [memcpy_of_le data 16 hread, argon2_world]
  cases hsel : s.argon2_optimization_selected <;> simp [hsel]

/-- The last arm of the switch when fewer than sixteen bytes are readable at `data`. -/
theorem cn_slow_hash_last_arm_undefined (E : Externals W V1 V2) (s : State W V1 V2)
    (data : List Byte) (length : Nat) (h : hash) (type : cn_slow_hash_type)
    (h0 : type ≠ cn_slow_hash_type.heavy_v1) (h1 : type ≠ cn_slow_hash_type.heavy_v2)
    (h2 : type ≠ cn_slow_hash_type.turtle_lite_v2) (hshort : data.length < 16) :
    cn_slow_hash E s data length h type = .undefined := by
  unfold cn_slow_hash
  rw [if_neg (by simp [h0, h1]), if_neg h2]
  simp only [memcpy_of_lt data 16 hshort]

/-- The `turtle_lite_v2` arm of the switch. -/
theorem cn_slow_hash_turtle_eq (E : Externals W V1 V2) (s : State W V1 V2)
    (data : List Byte) (length : Nat) (h : hash) :
    cn_slow_hash E s data length h cn_slow_hash_type.turtle_lite_v2 =
      .returned
        (⟨(E.cn_turtle_hash s.world data length 1 2 0 262144 131072).1,
          s.argon2_optimization_selected, s.heavy,
          s.trace ++ [Call.cn_turtle_hash data length 1 2 0 262144 131072]⟩,
         ⟨(E.cn_turtle_hash s.world data length 1 2 0 262144 131072).2⟩) := by
  simp [cn_slow_hash, cn_slow_hash_type.turtle_lite_v2, cn_slow_hash_type.heavy_v1,
    cn_slow_hash_type.heavy_v2]

/-- C2. For every input, `cn_slow_hash` with tag `turtle_lite_v2` returns, and the digest
it leaves in `hash` is the one `cn_turtle_hash` computes for `(data, length)` with
light = 1, variant = 2, pre-hashed = 0, scratchpad 262144 and 131072 iterations, passed
in that order; that call is the only one made, and the caller's bytes play no part. -/
theorem cn_slow_hash_turtle_lite_v2 (E : Externals W V1 V2) (s : State W V1 V2)
    (data : List Byte) (length : Nat) (h : hash) :
    cn_slow_hash E s data length h cn_slow_hash_type.turtle_lite_v2 =
      .returned
        (⟨(E.cn_turtle_hash s.world data length 1 2 0 262144 131072).1,
          s.argon2_optimization_selected, s.heavy,
          s.trace ++ [Call.cn_turtle_hash data length 1 2 0 262144 131072]⟩,
         ⟨(E.cn_turtle_hash s.world data length 1 2 0 262144 131072).2⟩) :=
  cn_slow_hash_turtle_eq E s data length h

/-- C3. For an input of at least 16 bytes, `cn_slow_hash` with tag `chukwa_slow_hash`
returns with `hash` holding exactly the digest `d` that `argon2id_hash_raw` stores when
called with t_cost 4, m_cost 1024, parallelism 1, the message `(data, length)`, the
first 16 bytes of the input as salt, salt length 16 and output length 32. -/
theorem cn_slow_hash_chukwa_digest (E : Externals W V1 V2) (s : State W V1 V2)
    (data : List Byte) (length : Nat) (h : hash) (d : CharArray 32)
    (hlen : 16 ≤ length) (hdata : length ≤ data.length)
    (hd : (E.argon2id_hash_raw (argon2_world E s) 4 1024 1 data length
      (data.take 16) 16 32).2.out = some d) :
    ∃ s1, cn_slow_hash E s data length h cn_slow_hash_type.chukwa_slow_hash =
        .returned (s1, ⟨d⟩) ∧
      s1.trace.getLast? = some (Call.argon2id_hash_raw 4 1024 1 data length
        ((data.take length).take 16) 16 32) := by
  have hread : 16 ≤ data.length := Nat.le_trans hlen hdata
  have htake : (data.take length).take 16 = data.take 16 := by
    rw [List.take_take, Nat.min_eq_left hlen]
  rw [cn_slow_hash_last_arm E s data length h _ (by decide) (by decide) (by decide) hread]
  simp only [hd, stored, htake]
  exact ⟨_, rfl, by simp⟩

/-- C3 at a concrete input: twenty bytes hashed from the start state of a thread. -/
theorem cn_slow_hash_chukwa_digest_witness :
    ∃ s1, cn_slow_hash toy (State.init 0) bytes20 20 null_hash
        cn_slow_hash_type.chukwa_slow_hash =
        .returned (s1, ⟨fill 32 (bytes16 ++ bytes20)⟩) ∧
      s1.trace.getLast? = some (Call.argon2id_hash_raw 4 1024 1 bytes20 20
        ((bytes20.take 20).take 16) 16 32) :=
  cn_slow_hash_chukwa_digest toy (State.init 0) bytes20 20 null_hash
    (fill 32 (bytes16 ++ bytes20)) (by decide) (by decide) (by decide)

/-- C4, as stated, fails: with 3 input bytes at the start of 16 readable ones the call
returns normally, hands all 16 bytes to Argon2 as salt and leaves a digest in `hash`;
the byte at offset 15, outside the input, decides that digest. -/
theorem cn_slow_hash_chukwa_short_counterexample :
    (3 : Nat) < 16 ∧
    cn_slow_hash toy (State.init 0) bytes16 3 null_hash cn_slow_hash_type.chukwa_slow_hash =
      .returned
        (⟨1001, true, none,
          [Call.argon2_select_impl, Call.argon2id_hash_raw 4 1024 1 bytes16 3 bytes16 16 32]⟩,
         ⟨fill 32 (bytes16 ++ [1, 2, 3])⟩) ∧
    (⟨fill 32 (bytes16 ++ [1, 2, 3])⟩ : hash) ≠ null_hash ∧
    cn_slow_hash toy (State.init 0) (bytes16.set 15 0) 3 null_hash
        cn_slow_hash_type.chukwa_slow_hash ≠
      cn_slow_hash toy (State.init 0) bytes16 3 null_hash
        cn_slow_hash_type.chukwa_slow_hash := by
  decide

/-- C4, amended. `cn_slow_hash` with tag `chukwa_slow_hash` makes no length check: for an
input shorter than 16 bytes with 16 bytes readable at `data`, it returns normally, having
called `argon2id_hash_raw` with the message `(data, length)` and the 16 bytes at `data`
as salt, and `hash` holds what that call stored. -/
theorem cn_slow_hash_chukwa_short (E : Externals W V1 V2) (s : State W V1 V2)
    (data : List Byte) (length : Nat) (h : hash)
    (hshort : length < 16) (hread : 16 ≤ data.length) :
    ∃ s1, cn_slow_hash E s data length h cn_slow_hash_type.chukwa_slow_hash =
        .returned (s1, stored (E.argon2id_hash_raw (argon2_world E s) 4 1024 1 data length
          (data.take 16) 16 32).2.out h) ∧
      s1.trace.getLast? = some (Call.argon2id_hash_raw 4 1024 1 data length
        (data.take 16) 16 32) ∧
      (data.take length).length < (data.take 16).length := by
  rw [cn_slow_hash_last_arm E s data length h _ (by decide) (by decide) (by decide) hread]
  refine ⟨_, rfl, by simp, ?_⟩
  simp only [List.length_take]
  omega

/-- C4, amended, at a concrete input: three input bytes at the start of sixteen readable ones. -/
theorem cn_slow_hash_chukwa_short_witness :
    ∃ s1, cn_slow_hash toy (State.init 0) bytes16 3 null_hash
        cn_slow_hash_type.chukwa_slow_hash =
        .returned (s1, stored (toy.argon2id_hash_raw (argon2_world toy (State.init 0))
          4 1024 1 bytes16 3 (bytes16.take 16) 16 32).2.out null_hash) ∧
      s1.trace.getLast? = some (Call.argon2id_hash_raw 4 1024 1 bytes16 3
        (bytes16.take 16) 16 32) ∧
      (bytes16.take 3).length < (bytes16.take 16).length :=
  cn_slow_hash_chukwa_short toy (State.init 0) bytes16 3 null_hash (by decide) (by decide)

/-- C5, as stated, fails: tag value 4 names no enumerator, and the call still returns
normally after running the probe and `argon2id_hash_raw`, with a digest in `hash`. -/
theorem cn_slow_hash_unlisted_tag_counterexample :
    ¬ cn_slow_hash_type.is_enumerator 4 ∧
    cn_slow_hash toy (State.init 0) bytes20 20 null_hash 4 =
      .returned
        (⟨1001, true, none,
          [Call.argon2_select_impl, Call.argon2id_hash_raw 4 1024 1 bytes20 20 bytes16 16 32]⟩,
         ⟨fill 32 (bytes16 ++ bytes20)⟩) ∧
    (⟨fill 32 (bytes16 ++ bytes20)⟩ : hash) ≠ null_hash := by
  decide

/-- C5, amended. A tag value that names none of the four enumerators takes the `default`
label, which stands on the `chukwa_slow_hash` arm: the call does exactly what it does
for `chukwa_slow_hash` on the same input, state and output object. -/
theorem cn_slow_hash_unlisted_tag (E : Externals W V1 V2) (s : State W V1 V2)
    (data : List Byte) (length : Nat) (h : hash) (type : cn_slow_hash_type)
    (htag : ¬ type.is_enumerator) :
    cn_slow_hash E s data length h type =
      cn_slow_hash E s data length h cn_slow_hash_type.chukwa_slow_hash := by
  have h0 : type ≠ cn_slow_hash_type.heavy_v1 := fun e => htag (Or.inl e)
  have h1 : type ≠ cn_slow_hash_type.heavy_v2 := fun e => htag (Or.inr (Or.inl e))
  have h2 : type ≠ cn_slow_hash_type.turtle_lite_v2 :=
    fun e => htag (Or.inr (Or.inr (Or.inl e)))
  rcases Nat.lt_or_ge data.length 16 with hshort | hread
  · rw [cn_slow_hash_last_arm_undefined E s data length h _ h0 h1 h2 hshort,
      cn_slow_hash_last_arm_undefined E s data length h _ (by decide) (by decide)
        (by decide) hshort]
  · rw [cn_slow_hash_last_arm E s data length h _ h0 h1 h2 hread,
      cn_slow_hash_last_arm E s data length h _ (by decide) (by decide) (by decide) hread]

/-- C5, amended, at a concrete input: tag value `-1`. -/
theorem cn_slow_hash_unlisted_tag_witness :
    cn_slow_hash toy (State.init 0) bytes20 20 null_hash (-1) =
      cn_slow_hash toy (State.init 0) bytes20 20 null_hash
        cn_slow_hash_type.chukwa_slow_hash :=
  cn_slow_hash_unlisted_tag toy (State.init 0) bytes20 20 null_hash (-1) (by decide)

/-- C7, as stated, fails: the primitive of `toy_failing` reports status `-1` and stores
nothing, and the call still returns normally, `hash` holding the caller's bytes. -/
theorem cn_slow_hash_argon2_failure_counterexample :
    (toy_failing.argon2id_hash_raw 1000 4 1024 1 bytes20 20 bytes16 16 32).2.code ≠ ARGON2_OK ∧
    cn_slow_hash toy_failing (State.init 0) bytes20 20 null_hash
        cn_slow_hash_type.chukwa_slow_hash =
      .returned
        (⟨1001, true, none,
          [Call.argon2_select_impl, Call.argon2id_hash_raw 4 1024 1 bytes20 20 bytes16 16 32]⟩,
         null_hash) := by
  decide

/-- C7, amended. `cn_slow_hash` drops the status of `argon2id_hash_raw`: putting any
other status in its place changes nothing in what the call does, and whenever the 16
salt bytes are readable the call returns normally, `hash` holding what the primitive
stored, or the caller's bytes when it stored none. -/
theorem cn_slow_hash_drops_argon2_status (E : Externals W V1 V2) (s : State W V1 V2)
    (data : List Byte) (length : Nat) (h : hash) (hread : 16 ≤ data.length) :
    (∀ f : Int → Int,
      cn_slow_hash (E.map_status f) s data length h cn_slow_hash_type.chukwa_slow_hash =
        cn_slow_hash E s data length h cn_slow_hash_type.chukwa_slow_hash) ∧
    ∃ s1, cn_slow_hash E s data length h cn_slow_hash_type.chukwa_slow_hash =
      .returned (s1, stored (E.argon2id_hash_raw (argon2_world E s) 4 1024 1 data length
        (data.take 16) 16 32).2.out h) := by
  constructor
  · intro f
    rw [cn_slow_hash_last_arm (E.map_status f) s data length h _ (by decide) (by decide)
        (by decide) hread,
      cn_slow_hash_last_arm E s data length h _ (by decide) (by decide) (by decide) hread]
    rfl
  · rw [cn_slow_hash_last_arm E s data length h _ (by decide) (by decide) (by decide) hread]
    exact ⟨_, rfl⟩

/-- C7, amended, at a concrete input, with a primitive that fails. -/
theorem cn_slow_hash_drops_argon2_status_witness :
    (∀ f : Int → Int,
      cn_slow_hash (toy_failing.map_status f) (State.init 0) bytes20 20 null_hash
          cn_slow_hash_type.chukwa_slow_hash =
        cn_slow_hash toy_failing (State.init 0) bytes20 20 null_hash
          cn_slow_hash_type.chukwa_slow_hash) ∧
    ∃ s1, cn_slow_hash toy_failing (State.init 0) bytes20 20 null_hash
        cn_slow_hash_type.chukwa_slow_hash =
      .returned (s1, stored (toy_failing.argon2id_hash_raw
        (argon2_world toy_failing (State.init 0)) 4 1024 1 bytes20 20
        (bytes20.take 16) 16 32).2.out null_hash) :=
  cn_slow_hash_drops_argon2_status toy_failing (State.init 0) bytes20 20 null_hash
    (by decide)

/-- The byte view of an array starts with the bytes of its first element. -/
theorem as_chars_cons (x : hash) (xs : List hash) :
    as_chars (x :: xs) = x.data.val ++ as_chars xs := by
  simp [as_chars]

/-- The byte view of an array of `n` hash objects has `HASH_SIZE * n` bytes. -/
theorem as_chars_length (hashes : List hash) :
    (as_chars hashes).length = HASH_SIZE * hashes.length := by
  induction hashes with
  | nil => simp [as_chars]
  | cons x xs ih =>
    rw [as_chars_cons, List.length_append, ih, x.data.property, List.length_cons]
    ring

/-- Element `i` of the byte view is the content of the `i`-th hash object. -/
theorem chars_at_as_chars (hashes : List hash) (i : Nat) (hi : i < hashes.length) :
    chars_at (as_chars hashes) i = (hashes.get ⟨i, hi⟩).data.val := by
  induction hashes generalizing i with
  | nil => simp at hi
  | cons x xs ih =>
    have hx : x.data.val.length = HASH_SIZE := x.data.property
    cases i with
    | zero =>
      simp only [chars_at, as_chars_cons, Nat.mul_zero, List.drop_zero, List.get_cons_zero]
      rw [List.take_append_of_le_length (by omega), List.take_of_length_le (by omega)]
      rfl
    | succ j =>
      have hj : j < xs.length := by simpa using hi
      have hdrop : List.drop (HASH_SIZE * (j + 1)) (x.data.val ++ as_chars xs) =
          List.drop (HASH_SIZE * j) (as_chars xs) := by
        have : HASH_SIZE * (j + 1) = x.data.val.length + HASH_SIZE * j := by rw [hx]; ring
        rw [this, List.drop_append]
      have := ih j hj
      simp only [chars_at] at this ⊢
      rw [as_chars_cons, hdrop, this]
      rfl

/-- C9. The typed `tree_hash` returns the 32 bytes the raw combiner produces, unchanged,
for the byte view of the array and `count` equal to the number of leaves; that view holds
`HASH_SIZE * count` bytes, and its `i`-th element of `HASH_SIZE` bytes is the content of
the `i`-th leaf: no leaf is moved, dropped, repeated or cut. This holds for every
sequence, the non-empty ones included. -/
theorem tree_hash_is_raw_tree_hash (raw : List Byte → Nat → CharArray 32)
    (hashes : List hash) :
    (tree_hash raw hashes hashes.length).data = raw (as_chars hashes) hashes.length ∧
    (as_chars hashes).length = HASH_SIZE * hashes.length ∧
    (∀ i (hi : i < hashes.length),
      chars_at (as_chars hashes) i = (hashes.get ⟨i, hi⟩).data.val) ∧
    as_chars hashes = (hashes.map (fun x => x.data.val)).flatten :=
  ⟨rfl, as_chars_length hashes, chars_at_as_chars hashes, rfl⟩

/-- C10. The sentinel `null_hash` is exactly 32 bytes, all `0x00`, and a hash value built
from 32 bytes `0x00` equals it; `null_hash8` is exactly 8 bytes, all `0x00`. -/
theorem null_hash_all_zero :
    null_hash.data.val = List.replicate 32 0 ∧
    null_hash.data.val.length = 32 ∧
    (∀ b ∈ null_hash.data.val, b = 0) ∧
    (⟨⟨List.replicate 32 0, rfl⟩⟩ : hash) = null_hash ∧
    null_hash8.data.val = List.replicate 8 0 ∧
    null_hash8.data.val.length = 8 ∧
    (∀ b ∈ null_hash8.data.val, b = 0) := by
  refine ⟨rfl, rfl, ?_, rfl, rfl, rfl, ?_⟩
  · intro b hb
    exact List.eq_of_mem_replicate hb
  · intro b hb
    exact List.eq_of_mem_replicate hb

/-! ### The thread-local heavy engines -/

/-- Constructing the thread-local engines calls no hash function and leaves the flag alone. -/
theorem heavy_statics_trace (E : Externals W V1 V2) (s : State W V1 V2) :
    (heavy_statics E s).1.trace = s.trace ∧
    (heavy_statics E s).1.argon2_optimization_selected = s.argon2_optimization_selected := by
  unfold heavy_statics
  cases hh : s.heavy with
  | none => exact ⟨rfl, rfl⟩
  | some p => exact ⟨rfl, rfl⟩

/-- After their declarations the thread-local engines are constructed. -/
theorem heavy_statics_heavy (E : Externals W V1 V2) (s : State W V1 V2) :
    (heavy_statics E s).1.heavy = some ((heavy_statics E s).2.1, (heavy_statics E s).2.2) := by
  unfold heavy_statics
  cases hh : s.heavy with
  | none => rfl
  | some p => simp [hh]

/-- The `v1` in use is borrowed from the `v2` in use, in a state where this holds of the constructed pair. -/
theorem heavy_statics_borrowed (E : Externals W V1 V2) (s : State W V1 V2)
    (hs : s.v1_borrows_v2 E) :
    (heavy_statics E s).2.2 = E.make_borrowed (heavy_statics E s).2.1 := by
  unfold heavy_statics
  cases hh : s.heavy with
  | none => rfl
  | some p => exact hs p.1 p.2 hh

/-- The `heavy_v1` arm of the switch. -/
theorem cn_slow_hash_heavy_v1_eq (E : Externals W V1 V2) (s : State W V1 V2)
    (data : List Byte) (length : Nat) (h : hash) :
    cn_slow_hash E s data length h cn_slow_hash_type.heavy_v1 =
      .returned
        (⟨(E.v1_hash (heavy_statics E s).1.world (heavy_statics E s).2.2 data length).1,
          s.argon2_optimization_selected,
          some ((heavy_statics E s).2.1, (heavy_statics E s).2.2),
          s.trace ++ [Call.v1_hash data length]⟩,
         ⟨(E.v1_hash (heavy_statics E s).1.world (heavy_statics E s).2.2 data length).2⟩) := by
  unfold cn_slow_hash
  rw [if_pos (Or.inl rfl)]
  simp only [if_true, (heavy_statics_trace E s).1, (heavy_statics_trace E s).2,
    heavy_statics_heavy E s]

/-- The `heavy_v2` arm of the switch. -/
theorem cn_slow_hash_heavy_v2_eq (E : Externals W V1 V2) (s : State W V1 V2)
    (data : List Byte) (length : Nat) (h : hash) :
    cn_slow_hash E s data length h cn_slow_hash_type.heavy_v2 =
      .returned
        (⟨(E.v2_hash (heavy_statics E s).1.world (heavy_statics E s).2.1 data length).1,
          s.argon2_optimization_selected,
          some ((heavy_statics E s).2.1, (heavy_statics E s).2.2),
          s.trace ++ [Call.v2_hash data length]⟩,
         ⟨(E.v2_hash (heavy_statics E s).1.world (heavy_statics E s).2.1 data length).2⟩) := by
  unfold cn_slow_hash
  rw [if_pos (Or.inr rfl), if_neg (by decide)]
  simp only [(heavy_statics_trace E s).1, (heavy_statics_trace E s).2,
    heavy_statics_heavy E s]

/-- At the start of a thread no engine is constructed. -/
theorem init_v1_borrows_v2 (E : Externals W V1 V2) (w : W) :
    (State.init w : State W V1 V2).v1_borrows_v2 E := by
  intro v2 v1 hh
  simp [State.init] at hh

/-- A call of `cn_slow_hash` keeps `v1` borrowed from `v2`. -/
theorem cn_slow_hash_v1_borrows_v2 (E : Externals W V1 V2) (s : State W V1 V2)
    (data : List Byte) (length : Nat) (h : hash) (type : cn_slow_hash_type)
    (r : State W V1 V2 × hash) (hs : s.v1_borrows_v2 E)
    (hr : cn_slow_hash E s data length h type = .returned r) : r.1.v1_borrows_v2 E := by
  by_cases h0 : type = cn_slow_hash_type.heavy_v1
  · subst h0
    rw [cn_slow_hash_heavy_v1_eq] at hr
    injection hr with hr
    subst hr
    intro v2 v1 hh
    simp only [Option.some.injEq, Prod.mk.injEq] at hh
    rw [← hh.1, ← hh.2]
    exact heavy_statics_borrowed E s hs
  by_cases h1 : type = cn_slow_hash_type.heavy_v2
  · subst h1
    rw [cn_slow_hash_heavy_v2_eq] at hr
    injection hr with hr
    subst hr
    intro v2 v1 hh
    simp only [Option.some.injEq, Prod.mk.injEq] at hh
    rw [← hh.1, ← hh.2]
    exact heavy_statics_borrowed E s hs
  by_cases h2 : type = cn_slow_hash_type.turtle_lite_v2
  · subst h2
    rw [cn_slow_hash_turtle_eq] at hr
    injection hr with hr
    subst hr
    exact hs
  rcases Nat.lt_or_ge data.length 16 with hshort | hread
  · rw [cn_slow_hash_last_arm_undefined E s data length h _ h0 h1 h2 hshort] at hr
    cases hr
  · rw [cn_slow_hash_last_arm E s data length h _ h0 h1 h2 hread] at hr
    injection hr with hr
    subst hr
    exact hs

/-- A sequence of calls keeps `v1` borrowed from `v2`. -/
theorem run_v1_borrows_v2 (E : Externals W V1 V2) (calls : List Request) :
    ∀ (s s1 : State W V1 V2), s.v1_borrows_v2 E → run E s calls = .returned s1 →
      s1.v1_borrows_v2 E := by
  induction calls with
  | nil =>
    intro s s1 hs hr
    simp only [run] at hr
    injection hr with hr
    subst hr
    exact hs
  | cons c cs ih =>
    intro s s1 hs hr
    simp only [run] at hr
    cases hc : cn_slow_hash E s c.data c.length c.hash c.type with
    | undefined => rw [hc] at hr; cases hr
    | returned r =>
      rw [hc] at hr
      exact ih r.1 s1 (cn_slow_hash_v1_borrows_v2 E s _ _ _ _ r hs hc) hr

/-- C1. In every state a thread reaches from its start, whatever calls came before: the
thread-local `v1` is the engine `make_borrowed` builds from the thread-local `v2` of the
same state; `cn_slow_hash` with tag `heavy_v1` returns with `hash` holding the digest
`v1.hash` computes for `(data, length)` on that borrowed engine, and with tag `heavy_v2`
the digest `v2.hash` computes for `(data, length)` on `v2` itself; after either call the
two objects are still that pair. -/
theorem cn_slow_hash_heavy (E : Externals W V1 V2) (w : W) (history : List Request)
    (s : State W V1 V2) (hreach : run E (State.init w) history = .returned s)
    (data : List Byte) (length : Nat) (h : hash) :
    (heavy_statics E s).2.2 = E.make_borrowed (heavy_statics E s).2.1 ∧
    (∃ s1, cn_slow_hash E s data length h cn_slow_hash_type.heavy_v1 =
        .returned (s1, ⟨(E.v1_hash (heavy_statics E s).1.world
          (E.make_borrowed (heavy_statics E s).2.1) data length).2⟩) ∧
      s1.heavy = some ((heavy_statics E s).2.1, E.make_borrowed (heavy_statics E s).2.1)) ∧
    (∃ s2, cn_slow_hash E s data length h cn_slow_hash_type.heavy_v2 =
        .returned (s2, ⟨(E.v2_hash (heavy_statics E s).1.world
          (heavy_statics E s).2.1 data length).2⟩) ∧
      s2.heavy = some ((heavy_statics E s).2.1, E.make_borrowed (heavy_statics E s).2.1)) := by
  have hs : s.v1_borrows_v2 E :=
    run_v1_borrows_v2 E history _ s (init_v1_borrows_v2 E w) hreach
  have hb := heavy_statics_borrowed E s hs
  refine ⟨hb, ?_, ?_⟩
  · rw [cn_slow_hash_heavy_v1_eq, hb]
    exact ⟨_, rfl, rfl⟩
  · rw [cn_slow_hash_heavy_v2_eq, hb]
    exact ⟨_, rfl, rfl⟩

/-- C1 at a concrete input: sixteen bytes hashed in the state one `heavy_v2` call leaves. -/
theorem cn_slow_hash_heavy_witness :
    (heavy_statics toy toy_state).2.2 = toy.make_borrowed (heavy_statics toy toy_state).2.1 ∧
    (∃ s1, cn_slow_hash toy toy_state bytes16 16 null_hash cn_slow_hash_type.heavy_v1 =
        .returned (s1, ⟨(toy.v1_hash (heavy_statics toy toy_state).1.world
          (toy.make_borrowed (heavy_statics toy toy_state).2.1) bytes16 16).2⟩) ∧
      s1.heavy = some ((heavy_statics toy toy_state).2.1,
        toy.make_borrowed (heavy_statics toy toy_state).2.1)) ∧
    (∃ s2, cn_slow_hash toy toy_state bytes16 16 null_hash cn_slow_hash_type.heavy_v2 =
        .returned (s2, ⟨(toy.v2_hash (heavy_statics toy toy_state).1.world
          (heavy_statics toy toy_state).2.1 bytes16 16).2⟩) ∧
      s2.heavy = some ((heavy_statics toy toy_state).2.1,
        toy.make_borrowed (heavy_statics toy toy_state).2.1)) :=
  cn_slow_hash_heavy toy 0 [⟨[1, 2, 3], 3, null_hash, cn_slow_hash_type.heavy_v2⟩]
    toy_state (by decide) bytes16 16 null_hash

/-! ### The probe and its flags -/

/-- Among the four enumerators, `chukwa_slow_hash` is the one that reaches the last arm. -/
theorem last_arm_of_enumerator (t : cn_slow_hash_type) (ht : t.is_enumerator) :
    t.last_arm ↔ t = cn_slow_hash_type.chukwa_slow_hash := by
  rcases ht with rfl | rfl | rfl | rfl <;> decide

/-- One call with any tag: it returns; its flag ends set when it was set or the call
reaches the last arm; the probe runs in it exactly when the call reaches the last arm
with the flag clear, and then right before `argon2id_hash_raw`. -/
theorem cn_slow_hash_probe_step (E : Externals W V1 V2) (s : State W V1 V2)
    (data : List Byte) (length : Nat) (h : hash) (type : cn_slow_hash_type)
    (hread : type.last_arm → 16 ≤ data.length) :
    ∃ r ext, cn_slow_hash E s data length h type = .returned r ∧
      r.1.argon2_optimization_selected =
        (s.argon2_optimization_selected || decide type.last_arm) ∧
      r.1.trace = s.trace ++ ext ∧
      ext.count Call.argon2_select_impl =
        (if type.last_arm ∧ s.argon2_optimization_selected = false then 1 else 0) ∧
      (type.last_arm → ext =
        (if s.argon2_optimization_selected then [] else [Call.argon2_select_impl]) ++
          [Call.argon2id_hash_raw 4 1024 1 data length (data.take 16) 16 32]) := by
  by_cases h0 : type = cn_slow_hash_type.heavy_v1
  · subst h0
    rw [cn_slow_hash_heavy_v1_eq]
    refine ⟨_, [Call.v1_hash data length], rfl, ?_, rfl, ?_, ?_⟩
    · simp [cn_slow_hash_type.last_arm]
    · simp [cn_slow_hash_type.last_arm]
    · intro hl; exact absurd rfl hl.1
  by_cases h1 : type = cn_slow_hash_type.heavy_v2
  · subst h1
    rw [cn_slow_hash_heavy_v2_eq]
    refine ⟨_, [Call.v2_hash data length], rfl, ?_, rfl, ?_, ?_⟩
    · simp [cn_slow_hash_type.last_arm]
    · simp [cn_slow_hash_type.last_arm]
    · intro hl; exact absurd rfl hl.2.1
  by_cases h2 : type = cn_slow_hash_type.turtle_lite_v2
  · subst h2
    rw [cn_slow_hash_turtle_eq]
    refine ⟨_, [Call.cn_turtle_hash data length 1 2 0 262144 131072], rfl, ?_, rfl,
      ?_, ?_⟩
    · simp [cn_slow_hash_type.last_arm]
    · simp [cn_slow_hash_type.last_arm]
    · intro hl; exact absurd rfl hl.2.2
  have hl : type.last_arm := ⟨h0, h1, h2⟩
  rw [cn_slow_hash_last_arm E s data length h _ h0 h1 h2 (hread hl)]
  refine ⟨_, (if s.argon2_optimization_selected then [] else [Call.argon2_select_impl]) ++
    [Call.argon2id_hash_raw 4 1024 1 data length (data.take 16) 16 32], rfl, ?_, ?_,
    ?_, fun _ => rfl⟩
  · simp [hl]
  · cases hsel : s.argon2_optimization_selected <;> simp
  · cases hsel : s.argon2_optimization_selected <;> simp [hl]

/-- One call in the process: it returns; only the flag of its own translation unit can
change, and it ends set when it was set or the call reaches the last arm; the probe runs
in it exactly when the call reaches the last arm with that flag clear. -/
theorem process_call_probe (E : Externals W V1 V2) (p : Process W V1 V2) (c : Issued)
    (hread : c.call.type.last_arm → 16 ≤ c.call.data.length) :
    ∃ r ext, Process.call E p c = .returned r ∧
      r.1.argon2_optimization_selected =
        Function.update p.argon2_optimization_selected c.unit
          (p.argon2_optimization_selected c.unit || decide c.call.type.last_arm) ∧
      r.1.trace = p.trace ++ ext ∧
      ext.count Call.argon2_select_impl =
        (if c.call.type.last_arm ∧ p.argon2_optimization_selected c.unit = false
          then 1 else 0) ∧
      (c.call.type.last_arm → ext =
        (if p.argon2_optimization_selected c.unit then [] else [Call.argon2_select_impl]) ++
          [Call.argon2id_hash_raw 4 1024 1 c.call.data c.call.length
            (c.call.data.take 16) 16 32]) := by
  obtain ⟨r, ext, hr, hflag, htrace, hcount, hext⟩ :=
    cn_slow_hash_probe_step E (p.view c.unit c.thread) c.call.data c.call.length
      c.call.hash c.call.type hread
  have hcall : Process.call E p c = .returned (⟨r.1.world,
      Function.update p.argon2_optimization_selected c.unit r.1.argon2_optimization_selected,
      Function.update p.heavy c.thread r.1.heavy, r.1.trace⟩, r.2) := by
    simp only [Process.call, hr]
  refine ⟨_, ext, hcall, ?_, htrace, hcount, hext⟩
  simp only [hflag]
  rfl

/-- Running two lists of calls in a row is running the second from where the first
ends. -/
theorem process_run_append (E : Externals W V1 V2) (xs ys : List Issued) :
    ∀ (p p1 : Process W V1 V2), Process.run E p xs = .returned p1 →
      Process.run E p (xs ++ ys) = Process.run E p1 ys := by
  induction xs with
  | nil =>
    intro p p1 hr
    simp only [Process.run] at hr
    injection hr with hr
    subst hr
    rfl
  | cons c cs ih =>
    intro p p1 hr
    simp only [Process.run, List.cons_append] at hr ⊢
    cases hc : Process.call E p c with
    | undefined => rw [hc] at hr; cases hr
    | returned r =>
      rw [hc] at hr
      exact ih r.1 p1 hr

/-- Membership in `fresh_units`. -/
theorem mem_fresh_units (selected : Nat → Bool) (calls : List Issued) (v : Nat) :
    v ∈ fresh_units selected calls ↔
      ∃ x ∈ calls, x.unit = v ∧ x.call.type.last_arm ∧ selected x.unit = false := by
  simp only [fresh_units, List.mem_toFinset, List.mem_map, List.mem_filter,
    Bool.and_eq_true, decide_eq_true_eq, Bool.not_eq_true']
  constructor
  · rintro ⟨x, ⟨hx, hl, hs⟩, rfl⟩
    exact ⟨x, hx, rfl, hl, hs⟩
  · rintro ⟨x, hx, rfl, hl, hs⟩
    exact ⟨x, ⟨hx, hl, hs⟩, rfl⟩

/-- A first call that does not probe adds no unit. -/
theorem fresh_units_cons_skip (selected : Nat → Bool) (c : Issued) (cs : List Issued)
    (hc : ¬ (c.call.type.last_arm ∧ selected c.unit = false)) :
    fresh_units selected (c :: cs) = fresh_units selected cs := by
  ext v
  simp only [mem_fresh_units, List.mem_cons]
  constructor
  · rintro ⟨x, hx | hx, hv, hl, hs⟩
    · subst hx
      exact absurd ⟨hl, hs⟩ hc
    · exact ⟨x, hx, hv, hl, hs⟩
  · rintro ⟨x, hx, hv, hl, hs⟩
    exact ⟨x, Or.inr hx, hv, hl, hs⟩

/-- A first call that probes adds its unit, and the later calls of that unit add none. -/
theorem fresh_units_cons_probe (selected : Nat → Bool) (c : Issued) (cs : List Issued)
    (hl : c.call.type.last_arm) (hs : selected c.unit = false) :
    (fresh_units selected (c :: cs)).card =
      1 + (fresh_units (Function.update selected c.unit true) cs).card := by
  have h1 : fresh_units selected (c :: cs) =
      insert c.unit (fresh_units (Function.update selected c.unit true) cs) := by
    ext v
    simp only [Finset.mem_insert, mem_fresh_units, List.mem_cons]
    constructor
    · rintro ⟨x, hx | hx, hv, hxl, hxs⟩
      · subst hx
        exact Or.inl hv.symm
      · by_cases hu : x.unit = c.unit
        · exact Or.inl (hv ▸ hu)
        · exact Or.inr ⟨x, hx, hv, hxl, by rw [Function.update_noteq hu]; exact hxs⟩
    · rintro (hv | ⟨x, hx, hv, hxl, hxs⟩)
      · exact ⟨c, Or.inl rfl, hv.symm, hl, hs⟩
      · have hu : x.unit ≠ c.unit := by
          intro hu
          rw [hu, Function.update_same] at hxs
          cases hxs
        rw [Function.update_noteq hu] at hxs
        exact ⟨x, Or.inr hx, hv, hxl, hxs⟩
  have h2 : c.unit ∉ fresh_units (Function.update selected c.unit true) cs := by
    rw [mem_fresh_units]
    rintro ⟨x, _, hv, _, hxs⟩
    rw [hv, Function.update_same] at hxs
    cases hxs
  rw [h1, Finset.card_insert_of_not_mem h2, Nat.add_comm]

/-- A sequence of calls in the process, from any state: all calls return; the flag of a
translation unit ends set when it was set or a call from that unit reaches the last arm;
the probe runs once for each unit whose flag was clear and from which a call reaches the
last arm. -/
theorem process_run_probe (E : Externals W V1 V2) (calls : List Issued) :
    ∀ (p : Process W V1 V2),
      (∀ c ∈ calls, c.call.type.last_arm → 16 ≤ c.call.data.length) →
      ∃ p1, Process.run E p calls = .returned p1 ∧
        (∀ u, p1.argon2_optimization_selected u =
          (p.argon2_optimization_selected u ||
            decide (∃ c ∈ calls, c.unit = u ∧ c.call.type.last_arm))) ∧
        p1.trace.count Call.argon2_select_impl =
          p.trace.count Call.argon2_select_impl +
            (fresh_units p.argon2_optimization_selected calls).card := by
  induction calls with
  | nil =>
    intro p _
    exact ⟨p, rfl, by simp, by simp [fresh_units]⟩
  | cons c cs ih =>
    intro p hread
    obtain ⟨r, ext, hr, hflag, htrace, hcount, _⟩ :=
      process_call_probe E p c (hread c (List.mem_cons_self c cs))
    obtain ⟨p1, hrun, hflag1, hcount1⟩ :=
      ih r.1 (fun x hx => hread x (List.mem_cons_of_mem c hx))
    refine ⟨p1, ?_, ?_, ?_⟩
    · simp only [Process.run, hr]
      exact hrun
    · intro u
      rw [hflag1 u, hflag]
      by_cases hu : u = c.unit
      · subst hu
        rw [Function.update_same]
        by_cases hl : c.call.type.last_arm
        · simp [hl]
        · simp [hl]
      · rw [Function.update_noteq hu]
        have : (∃ x ∈ c :: cs, x.unit = u ∧ x.call.type.last_arm) ↔
            ∃ x ∈ cs, x.unit = u ∧ x.call.type.last_arm := by
          constructor
          · rintro ⟨x, hx, hxu, hxl⟩
            rcases List.mem_cons.mp hx with hx | hx
            · subst hx
              exact absurd hxu.symm hu
            · exact ⟨x, hx, hxu, hxl⟩
          · rintro ⟨x, hx, hxu, hxl⟩
            exact ⟨x, List.mem_cons_of_mem c hx, hxu, hxl⟩
        simp only [this]
    · rw [hcount1, htrace, List.count_append, hcount, hflag]
      by_cases hc : c.call.type.last_arm ∧ p.argon2_optimization_selected c.unit = false
      · rw [if_pos hc, fresh_units_cons_probe _ c cs hc.1 hc.2]
        simp only [hc.1, hc.2, decide_True, Bool.or_true]
        omega
      · rw [if_neg hc, fresh_units_cons_skip _ c cs hc]
        have hsame : Function.update p.argon2_optimization_selected c.unit
            (p.argon2_optimization_selected c.unit || decide c.call.type.last_arm) =
            p.argon2_optimization_selected := by
          funext u
          by_cases hu : u = c.unit
          · subst hu
            rw [Function.update_same]
            by_cases hl : c.call.type.last_arm
            · have hs : p.argon2_optimization_selected c.unit = true := by
                cases hsel : p.argon2_optimization_selected c.unit
                · exact absurd ⟨hl, hsel⟩ hc
                · rfl
              simp [hs]
            · simp [hl]
          · rw [Function.update_noteq hu]
        rw [hsame]
        omega

/-- Membership in `probing_units`. -/
theorem mem_probing_units (calls : List Issued) (u : Nat) :
    u ∈ probing_units calls ↔ ∃ c ∈ calls, c.unit = u ∧ c.call.type.last_arm := by
  rw [probing_units, mem_fresh_units]
  constructor
  · rintro ⟨x, hx, hu, hl, _⟩
    exact ⟨x, hx, hu, hl⟩
  · rintro ⟨x, hx, hu, hl⟩
    exact ⟨x, hx, hu, hl, rfl⟩

/-- Calls that all come from one translation unit probe from at most that unit. -/
theorem probing_units_one_unit (calls : List Issued) (u : Nat)
    (hu : ∀ c ∈ calls, c.unit = u) :
    (probing_units calls).card = if ∃ c ∈ calls, c.call.type.last_arm then 1 else 0 := by
  by_cases hex : ∃ c ∈ calls, c.call.type.last_arm
  · rw [if_pos hex]
    have : probing_units calls = {u} := by
      ext v
      rw [mem_probing_units, Finset.mem_singleton]
      constructor
      · rintro ⟨x, hx, hv, _⟩
        rw [← hv, hu x hx]
      · rintro rfl
        obtain ⟨x, hx, hl⟩ := hex
        exact ⟨x, hx, hu x hx, hl⟩
    rw [this, Finset.card_singleton]
  · rw [if_neg hex]
    have : probing_units calls = ∅ := by
      ext v
      rw [mem_probing_units]
      constructor
      · rintro ⟨x, hx, _, hl⟩
        exact absurd ⟨x, hx, hl⟩ hex
      · intro hv
        simp at hv
    rw [this, Finset.card_empty]

/-- The one-thread, one-unit `run` is `Process.run` on calls that all come from unit `u`
and thread `t`: the state it reaches is what those calls see of the process. -/
theorem run_is_process_run (E : Externals W V1 V2) (u t : Nat) (calls : List Request) :
    ∀ (p : Process W V1 V2) (s1 : State W V1 V2),
      run E (p.view u t) calls = .returned s1 →
      ∃ p1, Process.run E p (calls.map (fun c => ⟨u, t, c⟩)) = .returned p1 ∧
        p1.view u t = s1 := by
  induction calls with
  | nil =>
    intro p s1 hr
    simp only [run] at hr
    injection hr with hr
    exact ⟨p, rfl, hr⟩
  | cons c cs ih =>
    intro p s1 hr
    simp only [run] at hr
    cases hc : cn_slow_hash E (p.view u t) c.data c.length c.hash c.type with
    | undefined => rw [hc] at hr; cases hr
    | returned r =>
      rw [hc] at hr
      have hview : (Process.view (⟨r.1.world,
          Function.update p.argon2_optimization_selected u r.1.argon2_optimization_selected,
          Function.update p.heavy t r.1.heavy, r.1.trace⟩ : Process W V1 V2) u t) = r.1 := by
        simp only [Process.view, Function.update_same]
      have hr1 : run E r.1 cs = .returned s1 := hr
      rw [← hview] at hr1
      obtain ⟨p1, hrun, hv⟩ := ih _ s1 hr1
      refine ⟨p1, ?_, hv⟩
      simp only [List.map_cons, Process.run, Process.call, hc]
      exact hrun

/-! ### Determinism -/

/-- C8. Let every engine be a deterministic function of its arguments. For each of the
four tags and each input meeting the tag's precondition, two calls on the same input
bytes and tag both return and leave the same digest in `hash`, whatever the two states
they start from (flag set or clear, engines built or not, any calls made before),
whatever lies in memory after the input and whatever the two output objects held: `out`
is what the engine stored, the same in both calls, and only an Argon2 primitive that
stores nothing can leave it empty. -/
theorem cn_slow_hash_deterministic (E : Externals W V1 V2) (hdet : E.deterministic)
    (type : cn_slow_hash_type) (data1 data2 : List Byte) (length : Nat)
    (htag : type.is_enumerator)
    (hpre : type = cn_slow_hash_type.chukwa_slow_hash → 16 ≤ length)
    (hdata1 : length ≤ data1.length) (hdata2 : length ≤ data2.length)
    (hsame : data1.take length = data2.take length)
    (s1 s2 : State W V1 V2) (h1 h2 : hash) :
    ∃ (out : Option hash) (t1 t2 : State W V1 V2),
      cn_slow_hash E s1 data1 length h1 type = .returned (t1, out.getD h1) ∧
      cn_slow_hash E s2 data2 length h2 type = .returned (t2, out.getD h2) ∧
      (type ≠ cn_slow_hash_type.chukwa_slow_hash → out.isSome = true) ∧
      (type = cn_slow_hash_type.chukwa_slow_hash →
        out = (E.argon2id_hash_raw (argon2_world E s1) 4 1024 1 data1 length
          (data1.take 16) 16 32).2.out.map hash.mk) := by
  obtain ⟨hv1, hv2, hturtle, hargon⟩ := hdet
  rcases htag with rfl | rfl | rfl | rfl
  · rw [cn_slow_hash_heavy_v1_eq E s1 data1 length h1,
      cn_slow_hash_heavy_v1_eq E s2 data2 length h2,
      hv1 (heavy_statics E s2).1.world (heavy_statics E s1).1.world
        (heavy_statics E s2).2.2 (heavy_statics E s1).2.2 data2 data1 length hsame.symm]
    exact ⟨some ⟨(E.v1_hash (heavy_statics E s1).1.world (heavy_statics E s1).2.2
      data1 length).2⟩, _, _, rfl, rfl, fun _ => rfl, fun hc => absurd hc (by decide)⟩
  · rw [cn_slow_hash_heavy_v2_eq E s1 data1 length h1,
      cn_slow_hash_heavy_v2_eq E s2 data2 length h2,
      hv2 (heavy_statics E s2).1.world (heavy_statics E s1).1.world
        (heavy_statics E s2).2.1 (heavy_statics E s1).2.1 data2 data1 length hsame.symm]
    exact ⟨some ⟨(E.v2_hash (heavy_statics E s1).1.world (heavy_statics E s1).2.1
      data1 length).2⟩, _, _, rfl, rfl, fun _ => rfl, fun hc => absurd hc (by decide)⟩
  · rw [cn_slow_hash_turtle_eq E s1 data1 length h1,
      cn_slow_hash_turtle_eq E s2 data2 length h2,
      hturtle s2.world s1.world data2 data1 length 1 2 0 262144 131072 hsame.symm]
    exact ⟨some ⟨(E.cn_turtle_hash s1.world data1 length 1 2 0 262144 131072).2⟩, _, _,
      rfl, rfl, fun _ => rfl, fun hc => absurd hc (by decide)⟩
  · have hlen : 16 ≤ length := hpre rfl
    have hsalt : data2.take 16 = data1.take 16 := by
      have e1 : (data1.take length).take 16 = data1.take 16 := by
        rw [List.take_take, Nat.min_eq_left hlen]
      have e2 : (data2.take length).take 16 = data2.take 16 := by
        rw [List.take_take, Nat.min_eq_left hlen]
      rw [← e1, ← e2, hsame]
    rw [cn_slow_hash_last_arm E s1 data1 length h1 _ (by decide) (by decide) (by decide)
        (Nat.le_trans hlen hdata1),
      cn_slow_hash_last_arm E s2 data2 length h2 _ (by decide) (by decide) (by decide)
        (Nat.le_trans hlen hdata2),
      hargon (argon2_world E s2) (argon2_world E s1) 4 1024 1 data2 data1 length
        (data2.take 16) (data1.take 16) 16 32 hsame.symm (by rw [hsalt])]
    cases (E.argon2id_hash_raw (argon2_world E s1) 4 1024 1 data1 length
      (data1.take 16) 16 32).2.out with
    | none => exact ⟨none, _, _, rfl, rfl, fun hc => absurd rfl hc, fun _ => rfl⟩
    | some d => exact ⟨some ⟨d⟩, _, _, rfl, rfl, fun _ => rfl, fun _ => rfl⟩

/-- The collaborators `toy` are deterministic functions of their arguments. -/
theorem toy_deterministic : toy.deterministic := by
  refine ⟨?_, ?_, ?_, ?_⟩
  · intro w w' v v' data data' length hd
    simp [toy, hd]
  · intro w w' v v' data data' length hd
    simp [toy, hd]
  · intro w w' data data' length light variant prehashed scratchpad iterations hd
    simp [toy, hd]
  · intro w w' t_cost m_cost parallelism pwd pwd' pwdlen salt salt' saltlen hashlen hp hs
    simp [toy, hp, hs]

/-- C8 at a concrete input: twenty input bytes followed by different memory, hashed with
`chukwa_slow_hash` from two different states into two different output objects. -/
theorem cn_slow_hash_deterministic_witness :
    ∃ (out : Option hash) (t1 t2 : State Nat Nat Nat),
      cn_slow_hash toy (State.init 0) bytes20 20 null_hash
          cn_slow_hash_type.chukwa_slow_hash = .returned (t1, out.getD null_hash) ∧
      cn_slow_hash toy toy_state (bytes20 ++ [77, 78]) 20 ⟨fill 32 [9]⟩
          cn_slow_hash_type.chukwa_slow_hash = .returned (t2, out.getD ⟨fill 32 [9]⟩) ∧
      (cn_slow_hash_type.chukwa_slow_hash ≠ cn_slow_hash_type.chukwa_slow_hash →
        out.isSome = true) ∧
      (cn_slow_hash_type.chukwa_slow_hash = cn_slow_hash_type.chukwa_slow_hash →
        out = (toy.argon2id_hash_raw (argon2_world toy (State.init 0)) 4 1024 1 bytes20 20
          (bytes20.take 16) 16 32).2.out.map hash.mk) :=
  cn_slow_hash_deterministic toy toy_deterministic cn_slow_hash_type.chukwa_slow_hash
    bytes20 (bytes20 ++ [77, 78]) 20 (by decide) (by decide) (by decide) (by decide)
    (by decide) (State.init 0) toy_state null_hash ⟨fill 32 [9]⟩

end

end crypto
